import Mathlib

/-!
Verification of the HR analytics dashboard's filter-and-aggregate pipeline
(`src/hranalytics.py`) against its natural-language specification.

The dataset is modelled as a list of records (a pandas DataFrame's rows in
order).  Pandas boolean-mask filtering is modelled by explicit mask lists
combined with `and` and applied by positional selection, exactly mirroring
`df[(mask1) & (mask2) & (mask3) & (mask4)]`.  Aggregations (groupby, means,
value_counts, crosstab) are modelled over ℚ; pandas' NaN results (mean of an
empty series, standard deviation of a singleton group) are modelled as
`Option.none`.
-/

namespace HRAnalytics

/-- One employee row of `HR_Analytics.csv`, with the columns the dashboard
reads.  Categorical columns are strings, integer-scale columns are integers,
monetary columns are rationals. -/
structure Record where
  Department : String
  JobRole : String
  Gender : String
  TotalWorkingYears : Int
  Attrition : String
  JobSatisfaction : Int
  EnvironmentSatisfaction : Int
  RelationshipSatisfaction : Int
  WorkLifeBalance : Int
  MonthlyIncome : ℚ
  PerformanceRating : Int
  PercentSalaryHike : ℚ
  EducationField : String
  Age : Int
deriving DecidableEq, Repr

/-- The sidebar's filter state: the three multiselects (`departments`,
`roles`, `gender_filter`) and the experience slider `exp_range`. -/
structure FilterCriteria where
  departments : List String
  jobRoles : List String
  genders : List String
  expMin : Int
  expMax : Int
deriving DecidableEq, Repr

/-- `series.isin(vals)`: the elementwise boolean mask of a string column. -/
def seriesIsin (vals : List String) (col : List String) : List Bool :=
  col.map (fun x => decide (x ∈ vals))

/-- `series.between(lo, hi)`: the elementwise boolean mask of an integer
column, inclusive on both ends (pandas' default). -/
def seriesBetween (lo hi : Int) (col : List Int) : List Bool :=
  col.map (fun x => decide (lo ≤ x) && decide (x ≤ hi))

/-- `mask1 & mask2`: elementwise conjunction of two boolean masks. -/
def maskAnd (m1 m2 : List Bool) : List Bool :=
  List.zipWith and m1 m2

/-- `df[mask]`: boolean indexing, keeping the rows whose mask entry is true,
in order. -/
def maskSelect : List Record → List Bool → List Record
  | [], _ => []
  | _ :: _, [] => []
  | r :: rs, b :: bs => if b then r :: maskSelect rs bs else maskSelect rs bs

/-- `filtered_df` (src/hranalytics.py lines 103-108): boolean indexing of the
dataframe by the conjunction of the four sidebar masks. -/
def filtered_df (df : List Record) (c : FilterCriteria) : List Record :=
  maskSelect df
    (maskAnd
      (maskAnd
        (maskAnd
          (seriesIsin c.departments (df.map (fun r => r.Department)))
          (seriesIsin c.jobRoles (df.map (fun r => r.JobRole))))
        (seriesIsin c.genders (df.map (fun r => r.Gender))))
      (seriesBetween c.expMin c.expMax (df.map (fun r => r.TotalWorkingYears))))

/-- The spec's conjunctive membership predicate for one record:
Department selected, JobRole selected, Gender selected, and
TotalWorkingYears inside the inclusive experience range. -/
def matchesCriteria (c : FilterCriteria) (r : Record) : Bool :=
  decide (r.Department ∈ c.departments) && decide (r.JobRole ∈ c.jobRoles) &&
    decide (r.Gender ∈ c.genders) &&
    (decide (c.expMin ≤ r.TotalWorkingYears) && decide (r.TotalWorkingYears ≤ c.expMax))

/-- `sorted(column.unique())`: the distinct values of a column in ascending
order.  Used both for the sidebar's option lists (lines 76, 83, 90) and for
the sorted group keys of a pandas `groupby` (default `sort=True`). -/
def sortedUnique (col : List String) : List String :=
  List.insertionSort (· ≤ ·) col.dedup

/-- The distinct values of an integer column in ascending order: the row and
column index of a pandas `crosstab`. -/
def sortedUniqueInt (col : List Int) : List Int :=
  List.insertionSort (· ≤ ·) col.dedup

/-- `int(column.min())` of the experience column (slider lower bound,
line 97); 0 on an empty column (where pandas would yield NaN). -/
def colMinInt : List Int → Int
  | [] => 0
  | x :: xs => xs.foldl min x

/-- `int(column.max())` of the experience column (slider upper bound,
line 98); 0 on an empty column. -/
def colMaxInt : List Int → Int
  | [] => 0
  | x :: xs => xs.foldl max x

/-- The sidebar's default filter state: every observed Department, JobRole
and Gender selected, and the experience slider spanning the observed
min..max of TotalWorkingYears (lines 74-100). -/
def defaultCriteria (df : List Record) : FilterCriteria where
  departments := sortedUnique (df.map (fun r => r.Department))
  jobRoles := sortedUnique (df.map (fun r => r.JobRole))
  genders := sortedUnique (df.map (fun r => r.Gender))
  expMin := colMinInt (df.map (fun r => r.TotalWorkingYears))
  expMax := colMaxInt (df.map (fun r => r.TotalWorkingYears))

/-- `column.value_counts(normalize=True).get(target, 0)`: the relative
frequency of `target` in the column, and 0 when `target` does not occur
(also on an empty column, where `value_counts` is empty). -/
def valueCountsNormGet (target : String) (col : List String) : ℚ :=
  if col.count target = 0 then 0 else (col.count target : ℚ) / (col.length : ℚ)

/-- `attrition_rate` (line 128): share of filtered records with
Attrition == "Yes", times 100. -/
def attrition_rate (view : List Record) : ℚ :=
  valueCountsNormGet "Yes" (view.map (fun r => r.Attrition)) * 100

/-- `series.mean()`: arithmetic mean of a column; `none` models pandas' NaN
on an empty column. -/
def seriesMean (l : List ℚ) : Option ℚ :=
  if l.isEmpty then none else some (l.sum / (l.length : ℚ))

/-- `avg_satisfaction` (line 129): mean JobSatisfaction of the filtered
view. -/
def avg_satisfaction (view : List Record) : Option ℚ :=
  seriesMean (view.map (fun r => (r.JobSatisfaction : ℚ)))

/-- `avg_salary` (line 130): mean MonthlyIncome of the filtered view. -/
def avg_salary (view : List Record) : Option ℚ :=
  seriesMean (view.map (fun r => r.MonthlyIncome))

/-- `dept_attrition` (lines 178-180):
`groupby('Department')['Attrition'].apply(lambda x: (x == 'Yes').mean() * 100)`.
One row per department present in the view (pandas groups only over present
keys, in sorted order); the value is the share of "Yes" in the group times
100. -/
def dept_attrition (view : List Record) : List (String × ℚ) :=
  (sortedUnique (view.map (fun r => r.Department))).map (fun d =>
    let grp := view.filter (fun r => r.Department == d)
    (d, ((grp.map (fun r => r.Attrition)).count "Yes" : ℚ) / (grp.length : ℚ) * 100))

/-- `salary_role` (line 263): `groupby('JobRole')['MonthlyIncome'].mean()`. -/
def salary_role (view : List Record) : List (String × ℚ) :=
  (sortedUnique (view.map (fun r => r.JobRole))).map (fun k =>
    let inc := (view.filter (fun r => r.JobRole == k)).map (fun r => r.MonthlyIncome)
    (k, inc.sum / (inc.length : ℚ)))

/-- Smallest element of a nonempty rational list (`'min'` aggregation);
0 on the empty list, which never arises for a groupby group. -/
def listMin : List ℚ → ℚ
  | [] => 0
  | x :: xs => xs.foldl min x

/-- Largest element of a nonempty rational list (`'max'` aggregation);
0 on the empty list. -/
def listMax : List ℚ → ℚ
  | [] => 0
  | x :: xs => xs.foldl max x

/-- The square of pandas `Series.std()` (sample standard deviation,
`ddof=1`): the sample variance `Σ (x - mean)² / (n - 1)`.  `none` models the
NaN that pandas produces when `n ≤ 1` (the 0/0 of a single-member group);
the displayed std is the square root of this, so it is NaN exactly when
this is `none`. -/
def sampleVarSq (l : List ℚ) : Option ℚ :=
  if l.length ≤ 1 then none
  else
    some (((l.map (fun x => (x - l.sum / (l.length : ℚ)) ^ 2)).sum) / ((l.length : ℚ) - 1))

/-- One row of the "Detailed Salary Breakdown" table: the five aggregated
columns of lines 293-297 (`std` carried as its square, see `sampleVarSq`;
the display-only `.round(2)` is omitted). -/
structure SalaryStats where
  avgSalary : ℚ
  minSalary : ℚ
  maxSalary : ℚ
  stdDevSq : Option ℚ
  avgHike : ℚ
deriving DecidableEq, Repr

/-- `salary_stats` (lines 293-297): `groupby('JobRole').agg` of
mean/min/max/std of MonthlyIncome and mean PercentSalaryHike. -/
def salary_stats (view : List Record) : List (String × SalaryStats) :=
  (sortedUnique (view.map (fun r => r.JobRole))).map (fun k =>
    let grp := view.filter (fun r => r.JobRole == k)
    let inc := grp.map (fun r => r.MonthlyIncome)
    (k, { avgSalary := inc.sum / (inc.length : ℚ)
          minSalary := listMin inc
          maxSalary := listMax inc
          stdDevSq := sampleVarSq inc
          avgHike := (grp.map (fun r => r.PercentSalaryHike)).sum / (grp.length : ℚ) }))

/-- `env_sat` (line 343): `groupby('Department')` means of the four
satisfaction metrics, one row per department present, columns in the order
JobSatisfaction, EnvironmentSatisfaction, RelationshipSatisfaction,
WorkLifeBalance. -/
def env_sat (view : List Record) : List (String × (ℚ × ℚ × ℚ × ℚ)) :=
  (sortedUnique (view.map (fun r => r.Department))).map (fun d =>
    let grp := view.filter (fun r => r.Department == d)
    let n : ℚ := (grp.length : ℚ)
    (d, ((grp.map (fun r => (r.JobSatisfaction : ℚ))).sum / n,
         (grp.map (fun r => (r.EnvironmentSatisfaction : ℚ))).sum / n,
         (grp.map (fun r => (r.RelationshipSatisfaction : ℚ))).sum / n,
         (grp.map (fun r => (r.WorkLifeBalance : ℚ))).sum / n)))

/-- The cell index set of `pd.crosstab(JobSatisfaction, WorkLifeBalance)`
(lines 309-312): the full grid of (row label, column label) pairs, rows and
columns being the sorted distinct observed values. -/
def crosstabGrid (view : List Record) : List (Int × Int) :=
  (sortedUniqueInt (view.map (fun r => r.JobSatisfaction))).flatMap (fun a =>
    (sortedUniqueInt (view.map (fun r => r.WorkLifeBalance))).map (fun b => (a, b)))

/-- `satisfaction_data` (lines 309-312) flattened to cells: each grid cell
with its co-occurrence count. -/
def satisfaction_data (view : List Record) : List ((Int × Int) × Nat) :=
  (crosstabGrid view).map (fun p =>
    (p, (view.map (fun r => (r.JobSatisfaction, r.WorkLifeBalance))).count p))

/-- The radar chart's input (lines 325-327): the mean of each of the four
satisfaction metrics over the view, as an ordered field→mean mapping. -/
def satisfaction_means (view : List Record) : List (String × Option ℚ) :=
  [("JobSatisfaction", seriesMean (view.map (fun r => (r.JobSatisfaction : ℚ)))),
   ("EnvironmentSatisfaction", seriesMean (view.map (fun r => (r.EnvironmentSatisfaction : ℚ)))),
   ("RelationshipSatisfaction", seriesMean (view.map (fun r => (r.RelationshipSatisfaction : ℚ)))),
   ("WorkLifeBalance", seriesMean (view.map (fun r => (r.WorkLifeBalance : ℚ))))]

/-- The y-coordinate lookup of the "Highest Attrition" annotation
(lines 197-198):
`dept_attrition[dept_attrition['Department'] == 'Sales']['Attrition'].values[0]`.
`none` models the IndexError raised by `.values[0]` when the Sales rows are
absent. -/
def sales_annotation_y (view : List Record) : Option ℚ :=
  (((dept_attrition view).filter (fun p => p.1 == "Sales")).map (fun p => p.2)).head?

theorem maskSelect_map (p : Record → Bool) :
    ∀ l : List Record, maskSelect l (l.map p) = l.filter p := by
  intro l
  induction l with
  | nil => rfl
  | cons r rs ih =>
    simp only [List.map_cons, maskSelect, List.filter_cons]
    by_cases h : p r
    · simp [h, ih]
    · simp [h, ih]

theorem zipWith_and_map (p q : Record → Bool) :
    ∀ l : List Record,
      maskAnd (l.map p) (l.map q) = l.map (fun x => p x && q x) := by
  intro l
  induction l with
  | nil => rfl
  | cons r rs ih =>
    simp only [List.map_cons, maskAnd, List.zipWith_cons_cons] at *
    simp [ih]

theorem filtered_df_eq_filter (df : List Record) (c : FilterCriteria) :
    filtered_df df c = df.filter (matchesCriteria c) := by
  unfold filtered_df seriesIsin seriesBetween
  rw [List.map_map, List.map_map, List.map_map, List.map_map,
    zipWith_and_map, zipWith_and_map, zipWith_and_map, maskSelect_map]
  congr 1

/-- **C1.** The filter engine returns exactly the records of the dataset whose
Department, JobRole and Gender are selected and whose TotalWorkingYears lies
in the inclusive experience range, as a stable (order- and
multiplicity-preserving) sublist of the dataset. -/
theorem c1_filter_engine_correct (df : List Record) (c : FilterCriteria) :
    (∀ r, r ∈ filtered_df df c ↔
      r ∈ df ∧ r.Department ∈ c.departments ∧ r.JobRole ∈ c.jobRoles ∧
        r.Gender ∈ c.genders ∧
        c.expMin ≤ r.TotalWorkingYears ∧ r.TotalWorkingYears ≤ c.expMax) ∧
    (filtered_df df c).Sublist df := by
  constructor
  · intro r
    rw [filtered_df_eq_filter, List.mem_filter]
    unfold matchesCriteria
    simp only [Bool.and_eq_true, decide_eq_true_eq]
    tauto
  · rw [filtered_df_eq_filter]
    exact List.filter_sublist df

theorem foldl_min_le {α : Type} [LinearOrder α] :
    ∀ (xs : List α) (a : α), xs.foldl min a ≤ a ∧ ∀ y ∈ xs, xs.foldl min a ≤ y := by
  intro xs
  induction xs with
  | nil => exact fun a => ⟨le_refl a, by simp⟩
  | cons x xs ih =>
    intro a
    simp only [List.foldl_cons]
    obtain ⟨h1, h2⟩ := ih (min a x)
    refine ⟨le_trans h1 (min_le_left a x), ?_⟩
    intro y hy
    rcases List.mem_cons.mp hy with rfl | hy
    · exact le_trans h1 (min_le_right a y)
    · exact h2 y hy

theorem foldl_le_max {α : Type} [LinearOrder α] :
    ∀ (xs : List α) (a : α), a ≤ xs.foldl max a ∧ ∀ y ∈ xs, y ≤ xs.foldl max a := by
  intro xs
  induction xs with
  | nil => exact fun a => ⟨le_refl a, by simp⟩
  | cons x xs ih =>
    intro a
    simp only [List.foldl_cons]
    obtain ⟨h1, h2⟩ := ih (max a x)
    refine ⟨le_trans (le_max_left a x) h1, ?_⟩
    intro y hy
    rcases List.mem_cons.mp hy with rfl | hy
    · exact le_trans (le_max_right a y) h1
    · exact h2 y hy

theorem foldl_min_mem {α : Type} [LinearOrder α] :
    ∀ (xs : List α) (a : α), xs.foldl min a = a ∨ xs.foldl min a ∈ xs := by
  intro xs
  induction xs with
  | nil => exact fun a => Or.inl rfl
  | cons x xs ih =>
    intro a
    simp only [List.foldl_cons]
    rcases ih (min a x) with h | h
    · rcases min_choice a x with hm | hm
      · exact Or.inl (h.trans hm)
      · exact Or.inr (by rw [h, hm]; exact List.mem_cons_self x xs)
    · exact Or.inr (List.mem_cons_of_mem x h)

theorem foldl_max_mem {α : Type} [LinearOrder α] :
    ∀ (xs : List α) (a : α), xs.foldl max a = a ∨ xs.foldl max a ∈ xs := by
  intro xs
  induction xs with
  | nil => exact fun a => Or.inl rfl
  | cons x xs ih =>
    intro a
    simp only [List.foldl_cons]
    rcases ih (max a x) with h | h
    · rcases max_choice a x with hm | hm
      · exact Or.inl (h.trans hm)
      · exact Or.inr (by rw [h, hm]; exact List.mem_cons_self x xs)
    · exact Or.inr (List.mem_cons_of_mem x h)

theorem colMinInt_le (col : List Int) (y : Int) (hy : y ∈ col) :
    colMinInt col ≤ y := by
  cases col with
  | nil => cases hy
  | cons x xs =>
    unfold colMinInt
    obtain ⟨h1, h2⟩ := foldl_min_le xs x
    rcases List.mem_cons.mp hy with rfl | hy
    · exact h1
    · exact h2 y hy

theorem le_colMaxInt (col : List Int) (y : Int) (hy : y ∈ col) :
    y ≤ colMaxInt col := by
  cases col with
  | nil => cases hy
  | cons x xs =>
    unfold colMaxInt
    obtain ⟨h1, h2⟩ := foldl_le_max xs x
    rcases List.mem_cons.mp hy with rfl | hy
    · exact h1
    · exact h2 y hy

/-- **C2.** An empty selection on any categorical dimension yields an empty
filtered view (not an error), and every aggregation of the dashboard on that
empty view evaluates to a zero or empty or NaN-sentinel result: attrition
rate 0, means `none`, and empty group and crosstab tables. -/
theorem c2_empty_selection_zero (df : List Record) (c : FilterCriteria)
    (h : c.departments = [] ∨ c.jobRoles = [] ∨ c.genders = []) :
    filtered_df df c = [] ∧
    attrition_rate (filtered_df df c) = 0 ∧
    avg_satisfaction (filtered_df df c) = none ∧
    avg_salary (filtered_df df c) = none ∧
    dept_attrition (filtered_df df c) = [] ∧
    salary_role (filtered_df df c) = [] ∧
    salary_stats (filtered_df df c) = [] ∧
    env_sat (filtered_df df c) = [] ∧
    satisfaction_data (filtered_df df c) = [] := by
  have hv : filtered_df df c = [] := by
    rw [filtered_df_eq_filter, List.filter_eq_nil_iff]
    intro a _
    unfold matchesCriteria
    rcases h with h | h | h <;> simp [h]
  rw [hv]
  exact ⟨rfl, by simp [attrition_rate, valueCountsNormGet], rfl, rfl, rfl, rfl, rfl, rfl, rfl⟩

/-- Witness for C2 at a concrete one-record dataset and criteria with no
department selected. -/
theorem c2_empty_selection_zero_witness :
    filtered_df
      [Record.mk "Sales" "Manager" "Male" 2 "Yes" 1 2 3 4 100 3 11 "Marketing" 30]
      (FilterCriteria.mk [] ["Manager"] ["Male"] 0 10) = [] ∧
    attrition_rate
      (filtered_df
        [Record.mk "Sales" "Manager" "Male" 2 "Yes" 1 2 3 4 100 3 11 "Marketing" 30]
        (FilterCriteria.mk [] ["Manager"] ["Male"] 0 10)) = 0 := by
  have h := c2_empty_selection_zero
    [Record.mk "Sales" "Manager" "Male" 2 "Yes" 1 2 3 4 100 3 11 "Marketing" 30]
    (FilterCriteria.mk [] ["Manager"] ["Male"] 0 10) (Or.inl rfl)
  exact ⟨h.1, h.2.1⟩

/-- **C3.** When the criteria select the full observed domain of each
categorical field and the full observed experience range, the filtered view
is the dataset itself: same records, same order, same count. -/
theorem c3_full_domain_identity (df : List Record) (c : FilterCriteria)
    (hd : ∀ x, x ∈ c.departments ↔ x ∈ df.map (fun r => r.Department))
    (hr : ∀ x, x ∈ c.jobRoles ↔ x ∈ df.map (fun r => r.JobRole))
    (hg : ∀ x, x ∈ c.genders ↔ x ∈ df.map (fun r => r.Gender))
    (hmin : c.expMin = colMinInt (df.map (fun r => r.TotalWorkingYears)))
    (hmax : c.expMax = colMaxInt (df.map (fun r => r.TotalWorkingYears))) :
    filtered_df df c = df := by
  rw [filtered_df_eq_filter]
  apply List.filter_eq_self.mpr
  intro r hrr
  unfold matchesCriteria
  simp only [Bool.and_eq_true, decide_eq_true_eq]
  have htw : r.TotalWorkingYears ∈ df.map (fun r => r.TotalWorkingYears) :=
    List.mem_map_of_mem _ hrr
  refine ⟨⟨⟨(hd _).mpr (List.mem_map_of_mem _ hrr),
            (hr _).mpr (List.mem_map_of_mem _ hrr)⟩,
           (hg _).mpr (List.mem_map_of_mem _ hrr)⟩, ?_, ?_⟩
  · rw [hmin]
    exact colMinInt_le _ _ htw
  · rw [hmax]
    exact le_colMaxInt _ _ htw

/-- Witness for C3: the default sidebar criteria of a concrete two-record
dataset reproduce the dataset. -/
theorem c3_full_domain_identity_witness :
    filtered_df
      [Record.mk "Sales" "Manager" "Male" 1 "Yes" 1 2 3 4 100 3 11 "Marketing" 30,
       Record.mk "Sales" "Manager" "Male" 3 "No" 2 2 3 4 200 3 12 "Marketing" 40]
      (FilterCriteria.mk ["Sales"] ["Manager"] ["Male"] 1 3) =
      [Record.mk "Sales" "Manager" "Male" 1 "Yes" 1 2 3 4 100 3 11 "Marketing" 30,
       Record.mk "Sales" "Manager" "Male" 3 "No" 2 2 3 4 200 3 12 "Marketing" 40] := by
  apply c3_full_domain_identity
  · intro x; simp
  · intro x; simp
  · intro x; simp
  · rfl
  · rfl

/-- **C4.** Filtering is idempotent: filtering the filtered view again with
the same criteria returns it unchanged. -/
theorem c4_filter_idempotent (df : List Record) (c : FilterCriteria) :
    filtered_df (filtered_df df c) c = filtered_df df c := by
  rw [filtered_df_eq_filter (filtered_df df c) c]
  apply List.filter_eq_self.mpr
  intro a ha
  rw [filtered_df_eq_filter] at ha
  exact (List.mem_filter.mp ha).2

theorem mem_sortedUnique (col : List String) (k : String) :
    k ∈ sortedUnique col ↔ k ∈ col := by
  unfold sortedUnique
  rw [(List.perm_insertionSort _ _).mem_iff, List.mem_dedup]

theorem count_yes_map_attrition (grp : List Record) :
    (grp.map (fun r => r.Attrition)).count "Yes" =
      (grp.filter (fun r => r.Attrition == "Yes")).length := by
  rw [List.count_eq_countP, List.countP_map, List.countP_eq_length_filter]
  rfl

/-- **C5.** The attrition-by-department table has one row per department
that is present in the filtered view (a department with no members is
omitted, so no division by zero arises), and each present department's value
is 100 times the fraction of its group's records with Attrition "Yes". -/
theorem c5_dept_attrition_groups (view : List Record) :
    (∀ d, (∃ q, (d, q) ∈ dept_attrition view) ↔ ∃ r ∈ view, r.Department = d) ∧
    (∀ d q, (d, q) ∈ dept_attrition view →
      view.filter (fun r => r.Department == d) ≠ [] ∧
      q = 100 * (((view.filter (fun r => r.Department == d)).filter
            (fun r => r.Attrition == "Yes")).length : ℚ)
          / ((view.filter (fun r => r.Department == d)).length : ℚ)) := by
  have hkey : ∀ d : String, d ∈ sortedUnique (view.map (fun r => r.Department)) ↔
      ∃ r ∈ view, r.Department = d := by
    intro d
    rw [mem_sortedUnique, List.mem_map]
  constructor
  · intro d
    constructor
    · rintro ⟨q, hq⟩
      unfold dept_attrition at hq
      simp only [List.mem_map, Prod.mk.injEq] at hq
      obtain ⟨k, hk, rfl, -⟩ := hq
      exact (hkey k).mp hk
    · intro hd
      exact ⟨_, List.mem_map.mpr ⟨d, (hkey d).mpr hd, rfl⟩⟩
  · intro d q hq
    unfold dept_attrition at hq
    simp only [List.mem_map, Prod.mk.injEq] at hq
    obtain ⟨k, hk, rfl, rfl⟩ := hq
    obtain ⟨r, hr, hrd⟩ := (hkey k).mp hk
    constructor
    · apply List.ne_nil_of_mem (a := r)
      rw [List.mem_filter]
      exact ⟨hr, by simp [hrd]⟩
    · rw [count_yes_map_attrition]
      ring

theorem listMin_spec (l : List ℚ) (h : l ≠ []) :
    listMin l ∈ l ∧ ∀ x ∈ l, listMin l ≤ x := by
  cases l with
  | nil => exact absurd rfl h
  | cons x xs =>
    have heq : listMin (x :: xs) = xs.foldl min x := rfl
    rw [heq]
    obtain ⟨h1, h2⟩ := foldl_min_le xs x
    constructor
    · rcases foldl_min_mem xs x with hm | hm
      · rw [hm]; exact List.mem_cons_self x xs
      · exact List.mem_cons_of_mem x hm
    · intro y hy
      rcases List.mem_cons.mp hy with rfl | hy
      · exact h1
      · exact h2 y hy

theorem listMax_spec (l : List ℚ) (h : l ≠ []) :
    listMax l ∈ l ∧ ∀ x ∈ l, x ≤ listMax l := by
  cases l with
  | nil => exact absurd rfl h
  | cons x xs =>
    have heq : listMax (x :: xs) = xs.foldl max x := rfl
    rw [heq]
    obtain ⟨h1, h2⟩ := foldl_le_max xs x
    constructor
    · rcases foldl_max_mem xs x with hm | hm
      · rw [hm]; exact List.mem_cons_self x xs
      · exact List.mem_cons_of_mem x hm
    · intro y hy
      rcases List.mem_cons.mp hy with rfl | hy
      · exact h1
      · exact h2 y hy

/-- **C6.** Each row of the salary-breakdown table aggregates a nonempty
JobRole group of the filtered view: its mean income times the group size is
the group's income total, its min and max are attained group incomes that
bound every group income, its mean hike times the group size is the hike
total, and the standard deviation of a single-member group is the NaN
sentinel `none` (never an exception) while a group of two or more members
gets a defined value. -/
theorem c6_salary_stats_correct (view : List Record) (k : String) (s : SalaryStats)
    (h : (k, s) ∈ salary_stats view) :
    view.filter (fun r => r.JobRole == k) ≠ [] ∧
    s.avgSalary * ((view.filter (fun r => r.JobRole == k)).length : ℚ) =
      ((view.filter (fun r => r.JobRole == k)).map (fun r => r.MonthlyIncome)).sum ∧
    s.minSalary ∈ (view.filter (fun r => r.JobRole == k)).map (fun r => r.MonthlyIncome) ∧
    (∀ x ∈ (view.filter (fun r => r.JobRole == k)).map (fun r => r.MonthlyIncome),
      s.minSalary ≤ x) ∧
    s.maxSalary ∈ (view.filter (fun r => r.JobRole == k)).map (fun r => r.MonthlyIncome) ∧
    (∀ x ∈ (view.filter (fun r => r.JobRole == k)).map (fun r => r.MonthlyIncome),
      x ≤ s.maxSalary) ∧
    s.avgHike * ((view.filter (fun r => r.JobRole == k)).length : ℚ) =
      ((view.filter (fun r => r.JobRole == k)).map (fun r => r.PercentSalaryHike)).sum ∧
    ((view.filter (fun r => r.JobRole == k)).length = 1 → s.stdDevSq = none) ∧
    (2 ≤ (view.filter (fun r => r.JobRole == k)).length → s.stdDevSq ≠ none) := by
  unfold salary_stats at h
  simp only [List.mem_map, Prod.mk.injEq] at h
  obtain ⟨k', hk, rfl, rfl⟩ := h
  obtain ⟨r, hr, hrk⟩ := List.mem_map.mp ((mem_sortedUnique _ _).mp hk)
  have hgr : r ∈ view.filter (fun r => r.JobRole == k') := by
    rw [List.mem_filter]
    exact ⟨hr, by simp [hrk]⟩
  have hne : view.filter (fun r => r.JobRole == k') ≠ [] := List.ne_nil_of_mem hgr
  have hlen0 : (view.filter (fun r => r.JobRole == k')).length ≠ 0 := by
    simpa [List.length_eq_zero] using hne
  have hlenQ : ((view.filter (fun r => r.JobRole == k')).length : ℚ) ≠ 0 := by
    exact_mod_cast hlen0
  have hincne : (view.filter (fun r => r.JobRole == k')).map (fun r => r.MonthlyIncome) ≠ [] := by
    simpa using hne
  refine ⟨hne, ?_, ?_, ?_, ?_, ?_, ?_, ?_, ?_⟩
  · simp only [List.length_map]
    exact div_mul_cancel₀ _ hlenQ
  · exact (listMin_spec _ hincne).1
  · exact (listMin_spec _ hincne).2
  · exact (listMax_spec _ hincne).1
  · exact (listMax_spec _ hincne).2
  · exact div_mul_cancel₀ _ hlenQ
  · intro h1
    simp [sampleVarSq, List.length_map, h1]
  · intro h2
    have hx : ¬((view.filter (fun r => r.JobRole == k')).length ≤ 1) := by omega
    simp [sampleVarSq, List.length_map, hx]

/-- Witness for C6 at a one-record dataset: the single "Manager" group is
nonempty and its standard deviation is the `none` sentinel. -/
theorem c6_salary_stats_correct_witness :
    [Record.mk "Sales" "Manager" "Male" 2 "Yes" 1 2 3 4 100 3 11 "Marketing" 30].filter
      (fun r => r.JobRole == "Manager") ≠ [] ∧
    (SalaryStats.mk 100 100 100 none 11).stdDevSq = none := by
  have h := c6_salary_stats_correct
    [Record.mk "Sales" "Manager" "Male" 2 "Yes" 1 2 3 4 100 3 11 "Marketing" 30]
    "Manager" (SalaryStats.mk 100 100 100 none 11)
    (by norm_num [salary_stats, sortedUnique, sampleVarSq, listMin, listMax])
  exact ⟨h.1, h.2.2.2.2.2.2.2.1 (by rfl)⟩

theorem sum_bounds (a b : ℚ) :
    ∀ l : List ℚ, (∀ x ∈ l, a ≤ x ∧ x ≤ b) →
      a * l.length ≤ l.sum ∧ l.sum ≤ b * l.length := by
  intro l
  induction l with
  | nil => intro _; simp
  | cons x xs ih =>
    intro h
    have hx := h x (List.mem_cons_self x xs)
    obtain ⟨ih1, ih2⟩ := ih (fun y hy => h y (List.mem_cons_of_mem x hy))
    simp only [List.sum_cons, List.length_cons]
    push_cast
    have e1 : a * ((xs.length : ℚ) + 1) = a * (xs.length : ℚ) + a := by ring
    have e2 : b * ((xs.length : ℚ) + 1) = b * (xs.length : ℚ) + b := by ring
    constructor
    · rw [e1]; linarith [hx.1]
    · rw [e2]; linarith [hx.2]

theorem seriesMean_bounds (l : List ℚ) (hne : l ≠ []) (h : ∀ x ∈ l, 1 ≤ x ∧ x ≤ 4) :
    ∃ m, seriesMean l = some m ∧ 1 ≤ m ∧ m ≤ 4 := by
  obtain ⟨h1, h2⟩ := sum_bounds 1 4 l h
  have hlpos : 0 < (l.length : ℚ) := by
    have := List.length_pos.mpr hne
    exact_mod_cast this
  unfold seriesMean
  rw [if_neg (by simpa [List.isEmpty_iff] using hne)]
  refine ⟨_, rfl, ?_, ?_⟩
  · rw [le_div_iff₀ hlpos]; linarith
  · rw [div_le_iff₀ hlpos]; linarith

/-- **C7.** The attrition rate always lies in [0, 100]; on a nonempty view
whose satisfaction-scale fields all lie in the observed scale [1, 4], the
mean of each of the four satisfaction metrics is a defined value in [1, 4];
on an empty view each of these means is the NaN sentinel `none` rather than
a crash. -/
theorem c7_metric_bounds (view : List Record)
    (hb : ∀ r ∈ view,
      (1 ≤ r.JobSatisfaction ∧ r.JobSatisfaction ≤ 4) ∧
      (1 ≤ r.EnvironmentSatisfaction ∧ r.EnvironmentSatisfaction ≤ 4) ∧
      (1 ≤ r.RelationshipSatisfaction ∧ r.RelationshipSatisfaction ≤ 4) ∧
      (1 ≤ r.WorkLifeBalance ∧ r.WorkLifeBalance ≤ 4)) :
    0 ≤ attrition_rate view ∧ attrition_rate view ≤ 100 ∧
    (view = [] → ∀ p ∈ satisfaction_means view, p.2 = none) ∧
    (view ≠ [] → ∀ p ∈ satisfaction_means view,
      ∃ m, p.2 = some m ∧ 1 ≤ m ∧ m ≤ 4) := by
  have hcle : (view.map (fun r => r.Attrition)).count "Yes" ≤
      (view.map (fun r => r.Attrition)).length := List.count_le_length _ _
  have hrate : 0 ≤ attrition_rate view ∧ attrition_rate view ≤ 100 := by
    unfold attrition_rate valueCountsNormGet
    by_cases h0 : (view.map (fun r => r.Attrition)).count "Yes" = 0
    · simp [h0]
    · have hlpos : 0 < ((view.map (fun r => r.Attrition)).length : ℚ) := by
        have : 0 < (view.map (fun r => r.Attrition)).length :=
          lt_of_lt_of_le (Nat.pos_of_ne_zero h0) hcle
        exact_mod_cast this
      rw [if_neg h0]
      have hq : ((view.map (fun r => r.Attrition)).count "Yes" : ℚ) /
          ((view.map (fun r => r.Attrition)).length : ℚ) ≤ 1 := by
        rw [div_le_one hlpos]
        exact_mod_cast hcle
      have hq0 : 0 ≤ ((view.map (fun r => r.Attrition)).count "Yes" : ℚ) /
          ((view.map (fun r => r.Attrition)).length : ℚ) := by positivity
      constructor
      · positivity
      · nlinarith
  refine ⟨hrate.1, hrate.2, ?_, ?_⟩
  · intro hv p hp
    subst hv
    simp only [satisfaction_means, List.map_nil, List.mem_cons,
      List.not_mem_nil, or_false] at hp
    rcases hp with rfl | rfl | rfl | rfl <;> rfl
  · intro hv p hp
    have hmb : ∀ f : Record → Int, (∀ r ∈ view, 1 ≤ f r ∧ f r ≤ 4) →
        ∃ m, seriesMean (view.map (fun r => (f r : ℚ))) = some m ∧ 1 ≤ m ∧ m ≤ 4 := by
      intro f hf
      apply seriesMean_bounds
      · simpa using hv
      · intro x hx
        obtain ⟨r, hr, rfl⟩ := List.mem_map.mp hx
        have := hf r hr
        exact ⟨by exact_mod_cast this.1, by exact_mod_cast this.2⟩
    simp only [satisfaction_means, List.mem_cons, List.not_mem_nil, or_false] at hp
    rcases hp with rfl | rfl | rfl | rfl
    · exact hmb (fun r => r.JobSatisfaction) (fun r hr => (hb r hr).1)
    · exact hmb (fun r => r.EnvironmentSatisfaction) (fun r hr => (hb r hr).2.1)
    · exact hmb (fun r => r.RelationshipSatisfaction) (fun r hr => (hb r hr).2.2.1)
    · exact hmb (fun r => r.WorkLifeBalance) (fun r hr => (hb r hr).2.2.2)

/-- Witness for C7 at a concrete one-record view with in-range satisfaction
fields. -/
theorem c7_metric_bounds_witness :
    0 ≤ attrition_rate
        [Record.mk "Sales" "Manager" "Male" 2 "Yes" 1 2 3 4 100 3 11 "Marketing" 30] ∧
    attrition_rate
        [Record.mk "Sales" "Manager" "Male" 2 "Yes" 1 2 3 4 100 3 11 "Marketing" 30] ≤ 100 := by
  have h := c7_metric_bounds
    [Record.mk "Sales" "Manager" "Male" 2 "Yes" 1 2 3 4 100 3 11 "Marketing" 30]
    (by intro r hr; simp only [List.mem_cons, List.not_mem_nil, or_false] at hr
        subst hr; norm_num)
  exact ⟨h.1, h.2.1⟩

theorem length_filter_add {α : Type} (p : α → Bool) (l : List α) :
    (l.filter p).length + (l.filter (fun x => !(p x))).length = l.length := by
  induction l with
  | nil => rfl
  | cons x xs ih =>
    by_cases h : p x <;> simp [List.filter_cons, h] <;> omega

theorem sum_counts_eq_length {α : Type} [BEq α] [LawfulBEq α] :
    ∀ keys l : List α, keys.Nodup → (∀ x ∈ l, x ∈ keys) →
      (keys.map (fun k => l.count k)).sum = l.length := by
  intro keys
  induction keys with
  | nil =>
    intro l _ hcov
    have hl : l = [] :=
      List.eq_nil_iff_forall_not_mem.mpr (fun a ha => by simpa using hcov a ha)
    simp [hl]
  | cons k ks ih =>
    intro l hnd hcov
    obtain ⟨hk, hks⟩ := List.nodup_cons.mp hnd
    simp only [List.map_cons, List.sum_cons]
    have hcount : l.count k = (l.filter (fun x => x == k)).length := by
      rw [List.count_eq_countP, List.countP_eq_length_filter]
    have hmap : ks.map (fun q => l.count q) =
        ks.map (fun q => (l.filter (fun x => !(x == k))).count q) := by
      apply List.map_congr_left
      intro q hq
      have hqk : (fun x => !(x == k)) q = true := by
        simp only [Bool.not_eq_true']
        exact beq_eq_false_iff_ne.mpr (fun he => hk (he ▸ hq))
      exact (List.count_filter (p := fun x => !(x == k)) (a := q) hqk).symm
    rw [hmap, ih (l.filter (fun x => !(x == k))) hks ?cov, hcount,
      length_filter_add (fun x => x == k) l]
    case cov =>
      intro x hx
      rw [List.mem_filter] at hx
      have hxk : x ≠ k := by
        have hfalse : (x == k) = false := by
          simpa [Bool.not_eq_true'] using hx.2
        exact (beq_eq_false_iff_ne (a := x) (b := k)).mp hfalse
      rcases List.mem_cons.mp (hcov x hx.1) with rfl | hm
      · exact absurd rfl hxk
      · exact hm

theorem nodup_pair_grid (rows cols : List Int) (hr : rows.Nodup) (hc : cols.Nodup) :
    (rows.flatMap (fun a => cols.map (fun b => (a, b)))).Nodup := by
  induction rows with
  | nil => simp
  | cons a rs ih =>
    obtain ⟨ha, hrs⟩ := List.nodup_cons.mp hr
    simp only [List.flatMap_cons]
    apply List.Nodup.append
    · exact hc.map (fun b1 b2 h => by injection h)
    · exact ih hrs
    · intro p hp1 hp2
      obtain ⟨b, -, hb⟩ := List.mem_map.mp hp1
      obtain ⟨a2, ha2, hpa2⟩ := List.mem_flatMap.mp hp2
      obtain ⟨b2, -, hb2⟩ := List.mem_map.mp hpa2
      apply ha
      have h1 : p.1 = a := by rw [← hb]
      have h2 : p.1 = a2 := by rw [← hb2]
      rw [← h1, h2]
      exact ha2

theorem mem_sortedUniqueInt (col : List Int) (k : Int) :
    k ∈ sortedUniqueInt col ↔ k ∈ col := by
  unfold sortedUniqueInt
  rw [(List.perm_insertionSort _ _).mem_iff, List.mem_dedup]

theorem nodup_sortedUniqueInt (col : List Int) : (sortedUniqueInt col).Nodup := by
  unfold sortedUniqueInt
  exact (List.perm_insertionSort _ _).nodup_iff.mpr (List.nodup_dedup _)

/-- **C8.** The cell counts of the JobSatisfaction × WorkLifeBalance
cross-tabulation sum to the number of records of the filtered view. -/
theorem c8_crosstab_total (view : List Record) :
    ((satisfaction_data view).map (fun c => c.2)).sum = view.length := by
  unfold satisfaction_data
  rw [List.map_map]
  have hmain := sum_counts_eq_length (crosstabGrid view)
    (view.map (fun r => (r.JobSatisfaction, r.WorkLifeBalance))) ?nodup ?cover
  case nodup =>
    unfold crosstabGrid
    exact nodup_pair_grid _ _ (nodup_sortedUniqueInt _) (nodup_sortedUniqueInt _)
  case cover =>
    intro p hp
    obtain ⟨r, hr, rfl⟩ := List.mem_map.mp hp
    unfold crosstabGrid
    rw [List.mem_flatMap]
    refine ⟨r.JobSatisfaction, ?_, ?_⟩
    · rw [mem_sortedUniqueInt]
      exact List.mem_map_of_mem _ hr
    · rw [List.mem_map]
      refine ⟨r.WorkLifeBalance, ?_, rfl⟩
      rw [mem_sortedUniqueInt]
      exact List.mem_map_of_mem _ hr
  rw [List.length_map] at hmain
  have hcomp : ((fun c : (Int × Int) × Nat => c.2) ∘
      fun p : Int × Int =>
        (p, (view.map (fun r => (r.JobSatisfaction, r.WorkLifeBalance))).count p)) =
      fun p : Int × Int =>
        (view.map (fun r => (r.JobSatisfaction, r.WorkLifeBalance))).count p := rfl
  rw [hcomp]
  exact hmain

/-- **C9.** The "Highest Attrition" annotation of the Overview chart indexes
the first Sales row of the attrition table: the access is in bounds exactly
when the filtered view contains a record of the Sales department, and any
criteria whose department selection excludes "Sales" drive it out of bounds
(the `none` sentinel modelling the raised IndexError). -/
theorem c9_sales_annotation_bounds (view : List Record) :
    ((sales_annotation_y view).isSome = true ↔ ∃ r ∈ view, r.Department = "Sales") ∧
    (∀ (df : List Record) (c : FilterCriteria), "Sales" ∉ c.departments →
      sales_annotation_y (filtered_df df c) = none) := by
  have hgen : ∀ w : List Record,
      ((sales_annotation_y w).isSome = true ↔ ∃ r ∈ w, r.Department = "Sales") := by
    intro w
    unfold sales_annotation_y
    rw [List.head?_isSome, ne_eq, List.map_eq_nil_iff, List.filter_eq_nil_iff]
    push_neg
    constructor
    · rintro ⟨p, hp, hps⟩
      unfold dept_attrition at hp
      obtain ⟨k, hk, rfl⟩ := List.mem_map.mp hp
      have hks : k = "Sales" := by simpa using hps
      subst hks
      obtain ⟨r, hr, hrd⟩ := List.mem_map.mp ((mem_sortedUnique _ _).mp hk)
      exact ⟨r, hr, hrd⟩
    · rintro ⟨r, hr, hrd⟩
      have hk : "Sales" ∈ sortedUnique (w.map (fun x => x.Department)) := by
        rw [mem_sortedUnique]
        exact List.mem_map.mpr ⟨r, hr, hrd⟩
      exact ⟨_, List.mem_map.mpr ⟨"Sales", hk, rfl⟩, by simp⟩
  refine ⟨hgen view, ?_⟩
  intro df c hnc
  have hno : ¬∃ r ∈ filtered_df df c, r.Department = "Sales" := by
    rintro ⟨r, hr, hrd⟩
    rw [filtered_df_eq_filter, List.mem_filter] at hr
    have hm := hr.2
    unfold matchesCriteria at hm
    simp only [Bool.and_eq_true, decide_eq_true_eq] at hm
    exact hnc (hrd ▸ hm.1.1.1)
  have hns : ¬((sales_annotation_y (filtered_df df c)).isSome = true) :=
    fun h => hno ((hgen _).mp h)
  exact Option.not_isSome_iff_eq_none.mp hns

theorem sortedUnique_sorted_lt (col : List String) :
    (sortedUnique col).Sorted (· < ·) := by
  unfold sortedUnique
  have h1 : (List.insertionSort (· ≤ ·) col.dedup).Sorted (· ≤ ·) :=
    List.sorted_insertionSort _ _
  have h2 : (List.insertionSort (· ≤ ·) col.dedup).Nodup :=
    (List.perm_insertionSort _ _).nodup_iff.mpr (List.nodup_dedup _)
  exact h1.lt_of_le h2

/-- **C10.** Every group-wise table lists its groups in strictly ascending
order of the group key: attrition by Department, mean salary by JobRole,
the salary-statistics table by JobRole, and the satisfaction means by
Department. -/
theorem c10_group_tables_sorted (view : List Record) :
    ((dept_attrition view).map (fun p => p.1)).Sorted (· < ·) ∧
    ((salary_role view).map (fun p => p.1)).Sorted (· < ·) ∧
    ((salary_stats view).map (fun p => p.1)).Sorted (· < ·) ∧
    ((env_sat view).map (fun p => p.1)).Sorted (· < ·) := by
  refine ⟨?_, ?_, ?_, ?_⟩
  · have h : (dept_attrition view).map (fun p => p.1) =
        sortedUnique (view.map (fun r => r.Department)) := by
      unfold dept_attrition
      rw [List.map_map]
      exact List.map_id' _
    rw [h]
    exact sortedUnique_sorted_lt _
  · have h : (salary_role view).map (fun p => p.1) =
        sortedUnique (view.map (fun r => r.JobRole)) := by
      unfold salary_role
      rw [List.map_map]
      exact List.map_id' _
    rw [h]
    exact sortedUnique_sorted_lt _
  · have h : (salary_stats view).map (fun p => p.1) =
        sortedUnique (view.map (fun r => r.JobRole)) := by
      unfold salary_stats
      rw [List.map_map]
      exact List.map_id' _
    rw [h]
    exact sortedUnique_sorted_lt _
  · have h : (env_sat view).map (fun p => p.1) =
        sortedUnique (view.map (fun r => r.Department)) := by
      unfold env_sat
      rw [List.map_map]
      exact List.map_id' _
    rw [h]
    exact sortedUnique_sorted_lt _

end HRAnalytics
